import Mathlib

/-!
Verification development for the jobha repository: shallow embedding of the
document-parsing (section extraction, PDF text cleaning, extractor error
handling) and job-search streaming (match scoring, deduplication, SSE event
loop) components, with theorems settling the specification claims.

All Python arithmetic on counts and scores is embedded over `Nat`; the
keyword-ratio arithmetic `int(ratio * 30)` and `ratio > 0.7` is embedded
exactly as `(m * 30) / k` (floor division) and `10 * m > 7 * k`.
-/

namespace Jobha

/-- Substring test on character lists: Python's `needle in hay`. -/
def isSubList (needle : List Char) : List Char → Bool
  | [] => needle.isEmpty
  | c :: rest => needle.isPrefixOf (c :: rest) || isSubList needle rest

/-- Python's `needle in hay` on strings (substring containment). -/
def isSub (needle hay : String) : Bool :=
  isSubList needle.data hay.data

/-- Python's `str.lower()` (ASCII-relevant part). -/
def pyLower (s : String) : String :=
  String.mk (s.data.map Char.toLower)

/-- Python's `str.strip()` (ASCII-relevant part): drop leading and trailing
whitespace. -/
def pyStrip (s : String) : String :=
  String.mk ((s.data.dropWhile Char.isWhitespace).reverse.dropWhile
    Char.isWhitespace).reverse

/-- Splitting on newlines at the character level (Python's
`text.split('\n')`), kept structural so concrete instances evaluate. -/
def splitNL : List Char → List (List Char)
  | [] => [[]]
  | c :: cs =>
    match splitNL cs, c == '\n' with
    | r, true => [] :: r
    | [], false => [[c]]
    | r0 :: rs, false => (c :: r0) :: rs

/-- Python's `text.split('\n')` on strings. -/
def pySplitLines (s : String) : List String :=
  (splitNL s.data).map String.mk

/-! ## Match scoring: `PerplexityAPI._calculate_match_scores`
(src/services/ai/perplexity_api.py)

The per-job score is computed from the keyword list, the primary keyword and
the job's combined text; the job's prior `match_score` value is read into a
local that the final computation never uses, so the result depends only on
the texts. -/

/-- A job posting, restricted to the fields `_calculate_match_scores` and the
deduplication loop of `search_jobs` read. -/
structure Job where
  title : String
  company : String
  description : String
  requirements : List String
  deriving Repr, DecidableEq

/-- `' '.join([title, company, description, ' '.join(requirements)]).lower()`. -/
def jobText (j : Job) : String :=
  pyLower (String.intercalate " "
    [j.title, j.company, j.description, String.intercalate " " j.requirements])

/-- `[k.lower().strip() for k in keywords if k]` (the `isinstance` guard is
vacuous for string inputs). -/
def processedKeywords (keywords : List String) : List String :=
  (keywords.filter (fun k => !k.isEmpty)).map (fun k => pyStrip (pyLower k))

/-- `base_score`: 70 on a primary-keyword match, else 50. -/
def scoreBase (pm : Bool) : Nat := if pm then 70 else 50

/-- `keyword_bonus = int(keyword_match_ratio * 30)` with
`keyword_match_ratio = m / k` (0 when the keyword list is empty). -/
def scoreBonus (m k : Nat) : Nat := if k = 0 then 0 else m * 30 / k

/-- `new_score` after the base+bonus cap at 100 and the weak-match cap at
60 (applied when fewer than 3 keywords matched and the primary is absent). -/
def scoreCapped (pm : Bool) (m k : Nat) : Nat :=
  if m < 3 ∧ pm = false then min (min 100 (scoreBase pm + scoreBonus m k)) 60
  else min 100 (scoreBase pm + scoreBonus m k)

/-- The final score, after the strong-match boost (+10 when the primary
matches and the match ratio exceeds 0.7, capped at 100). -/
def scoreOf (pm : Bool) (m k : Nat) : Nat :=
  if pm = true ∧ 7 * k < 10 * m then min 100 (scoreCapped pm m k + 10)
  else scoreCapped pm m k

/-- The keywords of the processed list textually found in the job text. -/
def matchedKeywords (keywords : List String) (text : String) : List String :=
  (processedKeywords keywords).filter (fun kw => isSub kw text)

/-- The score computation of `_calculate_match_scores` given the combined
job text, embedded exactly over `Nat` (floor division for
`int(keyword_match_ratio * 30)`, `10 * m > 7 * k` for `ratio > 0.7`). -/
def calcFromText (keywords : List String) (primary : String) (text : String) :
    Nat :=
  scoreOf (isSub (pyStrip (pyLower primary)) text)
    (matchedKeywords keywords text).length
    (processedKeywords keywords).length

/-- The new `match_score` `_calculate_match_scores` stores into a job. -/
def calcMatchScore (keywords : List String) (primary : String) (j : Job) :
    Nat :=
  calcFromText keywords primary (jobText j)

/-! ## Section extraction: `extract_sections`
(src/services/document_parser/section_extractor.py) -/

/-- `SECTION_PATTERNS`, in the source's (insertion-ordered) dict order. -/
def SECTION_PATTERNS : List (String × List String) :=
  [("contact", ["contact", "personal details", "personal information",
      "email", "phone", "address"]),
   ("summary", ["summary", "profile", "objective", "professional summary",
      "about me", "career objective"]),
   ("experience", ["experience", "work experience", "employment history",
      "work history", "professional experience"]),
   ("education", ["education", "academic background", "qualifications",
      "academic qualifications", "educational background"]),
   ("skills", ["skills", "technical skills", "core competencies",
      "key skills", "professional skills", "expertise"]),
   ("certifications", ["certifications", "certificates",
      "professional certifications", "accreditations"]),
   ("languages", ["languages", "language proficiency", "language skills"]),
   ("projects", ["projects", "key projects", "professional projects"]),
   ("awards", ["awards", "honors", "achievements", "recognitions"]),
   ("references", ["references", "referees"])]

/-- Python's `str.isupper()` (ASCII-relevant part): at least one cased
character, and no cased character is lowercase. -/
def pyIsUpper (s : String) : Bool :=
  s.data.any Char.isAlpha && s.data.all (fun c => !c.isLower)

/-- Whether a line's lowercase form contains a keyword of some section. -/
def matchesPatterns (pats : List String) (line : String) : Bool :=
  pats.any (fun pat => isSub pat (pyLower line))

/-- First section of `SECTION_PATTERNS` whose keyword list matches the line. -/
def sectionFor (line : String) : Option String :=
  SECTION_PATTERNS.findSome? (fun p =>
    if matchesPatterns p.2 line then some p.1 else none)

/-- `_score_line_as_header`: composite header-likelihood heuristic. -/
def scoreLine (line : String) : Nat :=
  (if line.length < 30 then 1 else 0) +
  (if pyIsUpper line then 2
   else if (match line.data with | [] => false | c :: _ => c.isUpper) then 1
   else 0) +
  (if line.data.getLast? = some ':' then 2 else 0) +
  (if (sectionFor line).isSome then 3 else 0)

/-- A header candidate: `{'index': i, 'line': line, 'score': score}`. -/
structure Header where
  index : Nat
  line : String
  score : Nat
  deriving Repr, DecidableEq

/-- The header-candidate scan: stripped non-blank lines scoring ≥ 3,
carrying their original index. -/
def collectHeaders (i : Nat) : List String → List Header
  | [] => []
  | l :: ls =>
    (if !(pyStrip l).isEmpty && decide (3 ≤ scoreLine (pyStrip l)) then
      [⟨i, pyStrip l, scoreLine (pyStrip l)⟩] else []) ++
    collectHeaders (i + 1) ls

/-- Insert a header after all already-placed headers of score ≥ its own
(stable descending insertion). -/
def insertDesc (h : Header) : List Header → List Header
  | [] => [h]
  | h' :: t => if h'.score < h.score then h :: h' :: t else h' :: insertDesc h t

/-- `potential_headers.sort(key=score, reverse=True)`: stable sort by score
descending. -/
def sortByScoreDesc (hs : List Header) : List Header :=
  hs.foldl (fun acc h => insertDesc h acc) []

/-- `[line.strip() for line in lines[a:b] if line.strip()]`. -/
def sliceStrip (lines : List String) (a b : Nat) : List String :=
  ((lines.drop a).take (b - a)).filterMap (fun l =>
    if (pyStrip l).isEmpty then none else some (pyStrip l))

/-- The sections mapping: an insertion-ordered dict from section name to
content lines. -/
abbrev Sections := List (String × List String)

/-- Whether the dict has the key. -/
def dictHasKey (d : Sections) (k : String) : Bool :=
  d.any (fun p => p.1 == k)

/-- `sections.get(k, [])`. -/
def dictGet (d : Sections) (k : String) : List String :=
  match d.find? (fun p => p.1 == k) with
  | some p => p.2
  | none => []

/-- `if k not in sections: sections[k] = []; sections[k].extend(vs)`. -/
def dictExtendKey (d : Sections) (k : String) (vs : List String) : Sections :=
  if dictHasKey d k then
    d.map (fun p => if p.1 == k then (p.1, p.2 ++ vs) else p)
  else d ++ [(k, vs)]

/-- `sections[k].append(v)` (key created if absent, which the source
guarantees never happens). -/
def dictAppendLine (d : Sections) (k : String) (v : String) : Sections :=
  dictExtendKey d k [v]

/-- `sections[k] = vs`: replace the key's value, or add the key. -/
def dictSet (d : Sections) (k : String) (vs : List String) : Sections :=
  if dictHasKey d k then
    d.map (fun p => if p.1 == k then (p.1, vs) else p)
  else d ++ [(k, vs)]

/-- The header-interval loop: for each header in score-sorted order, attach
the stripped lines strictly between its index and the index of the next
header in that (score-sorted) order to the section its keywords imply. -/
def processHeaders (lines : List String) (d : Sections) :
    List Header → Sections
  | [] => d
  | h :: rest =>
    let endIdx := match rest with
      | [] => lines.length
      | h2 :: _ => h2.index
    let content := sliceStrip lines (h.index + 1) endIdx
    let name := (sectionFor h.line).getD "other"
    processHeaders lines (dictExtendKey d name content) rest

/-- `min(potential_headers, key=index)`: first header of minimal index. -/
def minByIndex (h : Header) (hs : List Header) : Header :=
  hs.foldl (fun a b => if b.index < a.index then b else a) h

/-- The no-header fallback: stream lines, switching the current section on
keyword matches (the matching line itself is not stored). -/
def streamClassify (cur : String) (d : Sections) : List String → Sections
  | [] => d
  | l :: ls =>
    if (pyStrip l).isEmpty then streamClassify cur d ls
    else match sectionFor (pyStrip l) with
      | some sec =>
        streamClassify sec (if dictHasKey d sec then d else d ++ [(sec, [])]) ls
      | none => streamClassify cur (dictAppendLine d cur (pyStrip l)) ls

/-- `any(key != 'other' and sections[key] for key in sections)`. -/
def hasMeaningful (d : Sections) : Bool :=
  d.any (fun p => p.1 != "other" && !p.2.isEmpty)

/-- The header path of `extract_sections`: process the score-sorted
headers against the initial `{'other': []}` dict, then prepend the
pre-first-header lines (by document order) to "contact" when nonempty. -/
def extractHeaderPath (lines : List String) (h : Header) (hs : List Header) :
    Sections :=
  if (sliceStrip lines 0 (minByIndex h hs).index).isEmpty then
    processHeaders lines [("other", [])] (h :: hs)
  else
    dictExtendKey (processHeaders lines [("other", [])] (h :: hs)) "contact"
      (sliceStrip lines 0 (minByIndex h hs).index)

/-- `extract_sections` before the final meaningful-sections check: the
header path when candidates exist, the streaming fallback otherwise. -/
def extractMain (lines : List String) : Sections :=
  match sortByScoreDesc (collectHeaders 0 lines) with
  | [] => streamClassify "other" [("other", [])] lines
  | h :: hs => extractHeaderPath lines h hs

/-- `extract_sections`, at the granularity of the already-split line list:
when no section except "other" ended up nonempty, the first ≤ 10 non-blank
lines are assigned to "contact". -/
def extractSectionsLines (lines : List String) : Sections :=
  if !hasMeaningful (extractMain lines) && decide (0 < lines.length) then
    if (sliceStrip lines 0 10).isEmpty then extractMain lines
    else dictSet (extractMain lines) "contact" (sliceStrip lines 0 10)
  else extractMain lines

/-- `extract_sections(text)`: split on newlines, then segment. -/
def extractSections (text : String) : Sections :=
  extractSectionsLines (pySplitLines text)

/-- Total number of lines stored over all section buckets. -/
def totalBucketLines (d : Sections) : Nat :=
  (d.map (fun p => p.2.length)).sum

/-- Number of non-blank lines of a text (lines whose strip is nonempty). -/
def nonBlankCount (text : String) : Nat :=
  ((pySplitLines text).filter (fun l => !(pyStrip l).isEmpty)).length

/-! ## PDF text cleaning: `PDFParser._clean_text`
(src/services/document_parser/pdf_parser.py) -/

/-- Python's `\s` character class on the ASCII range. -/
def pythonIsSpace (c : Char) : Bool :=
  c == ' ' || c == '\t' || c == '\n' || c == '\r' ||
  c.toNat == 11 || c.toNat == 12

/-- `dropWhile` never lengthens a list (termination helper). -/
theorem dropWhile_len_le (p : Char → Bool) (cs : List Char) :
    (cs.dropWhile p).length ≤ cs.length := by
  induction cs with
  | nil => simp [List.dropWhile]
  | cons c cs ih =>
    simp only [List.dropWhile]
    split
    · exact Nat.le_succ_of_le ih
    · simp

/-- Fuel-driven core of `collapseRuns`; the fuel (always instantiated with
the input length, which bounds the recursion depth) only makes the
recursion structural. -/
def collapseRunsF (p : Char → Bool) (f : List Char → List Char) :
    Nat → List Char → List Char
  | _, [] => []
  | 0, l => l
  | fuel + 1, c :: cs =>
    if p c then
      f (c :: cs.takeWhile p) ++ collapseRunsF p f fuel (cs.dropWhile p)
    else
      c :: collapseRunsF p f fuel cs

/-- Leftmost-greedy run rewriting: each maximal nonempty run of characters
satisfying `p` is replaced by `f run`; the embedding of `re.sub` for the
patterns `X{3,}` / `X+` used in `_clean_text`. -/
def collapseRuns (p : Char → Bool) (f : List Char → List Char)
    (l : List Char) : List Char :=
  collapseRunsF p f l.length l

/-- Python's `text.replace(' \n', '\n')` (all occurrences, left to right). -/
def replaceSpaceNL : List Char → List Char
  | [] => []
  | [c] => [c]
  | c1 :: c2 :: rest =>
    if c1 == ' ' && c2 == '\n' then '\n' :: replaceSpaceNL rest
    else c1 :: replaceSpaceNL (c2 :: rest)

/-- `re.sub(r'(\S)\n(\S)', r'\1 \2', text)`: leftmost non-overlapping
matches, each consuming its three characters. -/
def mergeBrokenLines : List Char → List Char
  | [] => []
  | [c] => [c]
  | [c1, c2] => [c1, c2]
  | c1 :: c2 :: c3 :: rest =>
    if !pythonIsSpace c1 && c2 == '\n' && !pythonIsSpace c3 then
      c1 :: ' ' :: c3 :: mergeBrokenLines rest
    else
      c1 :: mergeBrokenLines (c2 :: c3 :: rest)

/-- `PDFParser._clean_text`: newline-run collapse, non-ASCII removal,
whitespace collapse, the two line-break fixups, final strip. -/
def cleanText (text : String) : String :=
  let t1 := collapseRuns (fun c => c == '\n')
    (fun run => if 3 ≤ run.length then ['\n', '\n'] else run) text.data
  let t2 := collapseRuns (fun c => decide (127 < c.toNat)) (fun _ => [' ']) t1
  let t3 := collapseRuns pythonIsSpace (fun _ => [' ']) t2
  let t4 := replaceSpaceNL t3
  let t5 := mergeBrokenLines t4
  pyStrip (String.mk t5)

/-! ## Extractor error handling: `PDFParser.extract_text`,
`TextParser.extract_text`, and the empty-upload guard of
`DocumentParser.parse_file` (src/services/document_parser/). -/

/-- Python's `str.isspace()`: nonempty and all-whitespace. -/
def pyIsSpaceStr (s : String) : Bool :=
  !s.isEmpty && s.data.all pythonIsSpace

/-- Abstraction of a PDF file on disk: whether the path exists, its byte
size, and the text `pdfminer` would extract from it. -/
structure PdfFile where
  present : Bool
  size : Nat
  extracted : String

/-- The sentinel returned for whitespace-only PDF extraction. -/
def pdfSentinel : String :=
  "No extractable text found in the PDF document. The PDF might be scanned or image-based."

/-- `PDFParser.extract_text`: missing or zero-byte files raise (modelled as
`Except.error`, carrying the re-raised message), whitespace-only extraction
returns the sentinel, otherwise the cleaned text is returned. -/
def pdfExtractText (f : PdfFile) : Except String String :=
  if f.present = false then
    .error "Failed to parse PDF file: PDF file not found at path"
  else if f.size = 0 then
    .error "Failed to parse PDF file: PDF file is empty (0 bytes)"
  else if f.extracted.isEmpty || pyIsSpaceStr f.extracted then
    .ok pdfSentinel
  else
    .ok (cleanText f.extracted)

/-- `text.replace('\r\n', '\n')` (all occurrences, left to right). -/
def replaceCRLF : List Char → List Char
  | [] => []
  | [c] => [c]
  | c1 :: c2 :: rest =>
    if c1 == '\r' && c2 == '\n' then '\n' :: replaceCRLF rest
    else c1 :: replaceCRLF (c2 :: rest)

/-- `TextParser.extract_text`: the file's decoded content (`none` when the
open/read raises), CRLF/CR normalization, per-line strip, blank-line
removal. -/
def textExtractText (content : Option String) : Except String String :=
  match content with
  | none => .error "Failed to parse text file"
  | some text =>
    let t1 := String.mk (replaceCRLF text.data)
    let t2 := String.mk (t1.data.map (fun c => if c == '\r' then '\n' else c))
    let lines := (pySplitLines t2).map pyStrip
    .ok (String.intercalate "\n" (lines.filter (fun l => !l.isEmpty)))

/-- Outcome of `DocumentParser.parse_file`, restricted to acceptance. -/
inductive ParseOutcome where
  | rejected (msg : String)
  | accepted (text : String)
  deriving Repr, DecidableEq

/-- The guards of `DocumentParser.parse_file` around extraction: an empty
upload is rejected before dispatch; an extractor exception is reported as
failure; empty or whitespace-only extracted text is rejected. -/
def parseFileCheck (content : String) (extracted : Except String String) :
    ParseOutcome :=
  if content.isEmpty then .rejected "Uploaded file is empty"
  else match extracted with
    | .error e => .rejected e
    | .ok text =>
      if text.isEmpty || pyIsSpaceStr text then
        .rejected "Could not extract text from the document"
      else .accepted text

/-- Whether an extraction result is an error. -/
def isErr (e : Except String String) : Bool :=
  match e with
  | .error _ => true
  | .ok _ => false

/-- Whether a `parse_file` outcome is a rejection. -/
def isRejected (o : ParseOutcome) : Bool :=
  match o with
  | .rejected _ => true
  | .accepted _ => false

/-! ## Streaming deduplication: the batch loop of
`PerplexityAPI.search_jobs` (src/services/ai/perplexity_api.py) -/

/-- The (title, company) comparison of the deduplication loop. -/
def sameKey (a b : Job) : Bool :=
  a.title == b.title && a.company == b.company

/-- One batch through the loop: each job is appended to both `all_jobs` and
`new_jobs_batch` unless `all_jobs` already holds its (title, company) key;
returns the `new_jobs_batch` (and `all_jobs` grows by exactly that list). -/
def dedupBatchNew (all : List Job) : List Job → List Job
  | [] => []
  | j :: js =>
    if all.any (fun j' => sameKey j' j) then dedupBatchNew all js
    else j :: dedupBatchNew (all ++ [j]) js

/-- The stream of callback emissions over the incoming batches: a batch is
delivered only when its deduplicated remainder is nonempty. -/
def processBatches (all : List Job) : List (List Job) → List (List Job)
  | [] => []
  | b :: bs =>
    let newB := dedupBatchNew all b
    (if newB.isEmpty then [] else [newB]) ++ processBatches (all ++ newB) bs

/-- The final `all_jobs` after all batches. -/
def finalAll (all : List Job) : List (List Job) → List Job
  | [] => all
  | b :: bs => finalAll (all ++ dedupBatchNew all b) bs

/-- All job events delivered to the client in one session. -/
def emittedJobs (batches : List (List Job)) : List Job :=
  (processBatches [] batches).flatten

/-! ## SSE event loop: `job_search_generator` inside `stream_jobs_search`
(src/routers/cv.py) -/

/-- `get_match_quality_label` (src/routers/cv.py). -/
def matchQualityLabel (score : Int) : String :=
  if 90 ≤ score then "excellent"
  else if 75 ≤ score then "good"
  else if 60 ≤ score then "moderate"
  else "low"

/-- One iteration of the emission loop, as observed from the environment:
the overall-timeout check fires, a job is pulled from the queue, or the
bounded queue wait times out (carrying seconds since the last job). -/
inductive IterIn where
  | timeoutHit
  | gotJob (score : Int)
  | queueIdle (sinceLast : Nat)
  deriving Repr, DecidableEq

/-- The events of the SSE protocol emitted by the generator. -/
inductive Ev where
  | started
  | searchingInit
  | jobEv (count : Nat) (quality : String)
  | sufficient
  | timeoutEv
  | keepAlive (longIdle : Bool)
  | completedEv (total : Nat)
  | errorEv (total : Nat)
  deriving Repr, DecidableEq

/-- The emission loop: run until the iteration source is exhausted (the
search-complete event) or the overall timeout fires (which emits a timeout
status and breaks). Returns the final `jobs_found` and the events emitted
inside the loop. The `sufficient` status is emitted exactly when the
incremented count equals 25. -/
def runLoop : Nat → List IterIn → Nat × List Ev
  | n, [] => (n, [])
  | n, .timeoutHit :: _ => (n, [.timeoutEv])
  | n, .gotJob s :: rest =>
    let out := runLoop (n + 1) rest
    (out.1, .jobEv (n + 1) (matchQualityLabel s) ::
      ((if n + 1 = 25 then [.sufficient] else []) ++ out.2))
  | n, .queueIdle t :: rest =>
    let out := runLoop n rest
    (out.1, .keepAlive (30 < t) :: out.2)

/-- The single terminal message after the loop: an error event when the
callback reported an error, otherwise a completed event with the count
(total 0 when no jobs were found). -/
def finalEvent (err : Option String) (n : Nat) : Ev :=
  match err with
  | some _ => .errorEv n
  | none => if 0 < n then .completedEv n else .completedEv 0

/-- The full event stream of one `job_search_generator` session. -/
def generatorRun (its : List IterIn) (err : Option String) : List Ev :=
  [.started, .searchingInit] ++ (runLoop 0 its).2 ++
    [finalEvent err (runLoop 0 its).1]

/-- Number of `sufficient` events in a stream. -/
def countSufficient (evs : List Ev) : Nat :=
  evs.countP (fun e => e == .sufficient)

/-! ## Theorems: match scoring (C3, C4, C10) -/

/-- The keyword bonus never exceeds 30 when no more keywords match than
exist. -/
theorem scoreBonus_le_30 (m k : Nat) (h : m ≤ k) : scoreBonus m k ≤ 30 := by
  unfold scoreBonus
  split
  · omega
  · calc m * 30 / k ≤ k * 30 / k :=
        Nat.div_le_div_right (Nat.mul_le_mul_right 30 h)
      _ = 30 := Nat.mul_div_cancel_left 30 (by omega)

/-- The keyword bonus is monotone in the number of matched keywords. -/
theorem scoreBonus_mono (k : Nat) {m m' : Nat} (h : m ≤ m') :
    scoreBonus m k ≤ scoreBonus m' k := by
  unfold scoreBonus
  split
  · omega
  · exact Nat.div_le_div_right (Nat.mul_le_mul_right 30 h)

/-- The final score is monotone in the number of matched keywords, for a
fixed primary-match flag and keyword count. -/
theorem scoreOf_mono (pm : Bool) (k : Nat) {m m' : Nat} (h : m ≤ m') :
    scoreOf pm m k ≤ scoreOf pm m' k := by
  have hb := scoreBonus_mono k h
  cases pm <;>
    simp only [scoreOf, scoreCapped, scoreBase, Bool.false_eq_true,
      and_false, and_true, if_false, if_true, ite_false, ite_true,
      Bool.true_eq_false, false_and, true_and] <;>
    split_ifs <;> omega

/-- The final score always lies in [50, 100] when no more keywords match
than exist. -/
theorem scoreOf_bounds (pm : Bool) (m k : Nat) (h : m ≤ k) :
    50 ≤ scoreOf pm m k ∧ scoreOf pm m k ≤ 100 := by
  have hb := scoreBonus_le_30 m k h
  cases pm <;>
    simp only [scoreOf, scoreCapped, scoreBase, Bool.false_eq_true,
      and_false, and_true, if_false, if_true, ite_false, ite_true,
      Bool.true_eq_false, false_and, true_and] <;>
    split_ifs <;> omega

/-- C3: match-score monotonicity. For a fixed keyword list and primary
keyword, if every processed keyword found in the first job's combined text
is also found in the second's, and the primary keyword occurs in one iff
it occurs in the other, then the score `_calculate_match_scores` assigns
the second job is at least the score it assigns the first. -/
theorem calcMatchScore_monotone (keywords : List String) (primary : String)
    (j1 j2 : Job)
    (hkw : ∀ kw ∈ processedKeywords keywords,
      isSub kw (jobText j1) = true → isSub kw (jobText j2) = true)
    (hpm : isSub (pyStrip (pyLower primary)) (jobText j1)
         = isSub (pyStrip (pyLower primary)) (jobText j2)) :
    calcMatchScore keywords primary j1 ≤ calcMatchScore keywords primary j2 := by
  unfold calcMatchScore calcFromText
  rw [← hpm]
  apply scoreOf_mono
  unfold matchedKeywords
  rw [← List.countP_eq_length_filter, ← List.countP_eq_length_filter]
  exact List.countP_mono_left hkw

/-- Witness for C3 at a concrete enlargement: adding "docker" to a text
already containing "python". -/
theorem calcMatchScore_monotone_witness :
    calcMatchScore ["python", "docker", "react"] "python"
        ⟨"Dev", "Acme", "uses python", []⟩ ≤
      calcMatchScore ["python", "docker", "react"] "python"
        ⟨"Dev", "Acme", "uses python and docker", []⟩ :=
  calcMatchScore_monotone ["python", "docker", "react"] "python"
    ⟨"Dev", "Acme", "uses python", []⟩
    ⟨"Dev", "Acme", "uses python and docker", []⟩
    (by decide) (by decide)

/-- The concrete job of the C4 scenario: its combined text contains
"python" and "docker" but not "react". -/
def pythonDockerJob : Job :=
  ⟨"Python Developer", "Acme", "Experience with Docker required", []⟩

/-- C4: the scenario score. With keywords ["python","docker","react"] and
primary "python", a job containing "python" and "docker" but not "react"
scores 90 = base 70 (primary matched) + bonus 20 (2 of 3 keywords), and the
strong-match boost does not fire since 2/3 does not exceed 0.7. -/
theorem matchScore_scenario_90 :
    calcMatchScore ["python", "docker", "react"] "python" pythonDockerJob
        = 90 ∧
      (matchedKeywords ["python", "docker", "react"]
        (jobText pythonDockerJob)).length = 2 ∧
      (processedKeywords ["python", "docker", "react"]).length = 3 ∧
      isSub (pyStrip (pyLower "python")) (jobText pythonDockerJob) = true ∧
      scoreBase true = 70 ∧ scoreBonus 2 3 = 20 ∧ ¬(7 * 3 < 10 * 2) := by
  decide

/-- C10: score-range invariant. For a non-empty keyword list, the score
stored by `_calculate_match_scores` is always between 50 and 100; the
provider-supplied score is read but never used in the final computation. -/
theorem calcMatchScore_range (keywords : List String) (primary : String)
    (j : Job) (_h : keywords ≠ []) :
    50 ≤ calcMatchScore keywords primary j ∧
      calcMatchScore keywords primary j ≤ 100 := by
  unfold calcMatchScore calcFromText
  exact scoreOf_bounds _ _ _ (List.length_filter_le _ _)

/-- Witness for C10 at a concrete job and non-empty keyword list. -/
theorem calcMatchScore_range_witness :
    50 ≤ calcMatchScore ["python"] "python" pythonDockerJob ∧
      calcMatchScore ["python"] "python" pythonDockerJob ≤ 100 :=
  calcMatchScore_range ["python"] "python" pythonDockerJob (by decide)

/-! ## Theorems: SSE event loop (C6, C7) -/

/-- The running job count never decreases across the loop. -/
theorem runLoop_count_le (n : Nat) (its : List IterIn) :
    n ≤ (runLoop n its).1 := by
  induction its generalizing n with
  | nil => simp [runLoop]
  | cons e rest ih =>
    cases e with
    | timeoutHit => simp [runLoop]
    | gotJob s =>
      simp only [runLoop]
      exact Nat.le_trans (Nat.le_succ n) (ih (n + 1))
    | queueIdle t => simpa [runLoop] using ih n

/-- Inside the loop, a `sufficient` event is emitted exactly once, and only
on the iteration where the running count becomes exactly 25. -/
theorem countSufficient_runLoop (n : Nat) (its : List IterIn) :
    countSufficient (runLoop n its).2 =
      if n < 25 ∧ 25 ≤ (runLoop n its).1 then 1 else 0 := by
  induction its generalizing n with
  | nil =>
    simp only [runLoop, countSufficient, List.countP_nil]
    rw [if_neg (show ¬(n < 25 ∧ 25 ≤ n) by omega)]
  | cons e rest ih =>
    cases e with
    | timeoutHit =>
      simp only [runLoop, countSufficient, List.countP_cons, List.countP_nil]
      rw [if_neg (show ¬(n < 25 ∧ 25 ≤ n) by omega)]
      rfl
    | gotJob s =>
      have hle := runLoop_count_le (n + 1) rest
      have ihn := ih (n + 1)
      simp only [runLoop, countSufficient, List.countP_cons,
        List.countP_append] at *
      by_cases h25 : n + 1 = 25 <;> split_ifs at * <;> simp_all <;> omega
    | queueIdle t =>
      have ihn := ih n
      simp only [runLoop, countSufficient, List.countP_cons] at *
      simpa using ihn

/-- The terminal event is never a `sufficient` event. -/
theorem finalEvent_ne_sufficient (err : Option String) (n : Nat) :
    (finalEvent err n == Ev.sufficient) = false := by
  cases err
  · simp only [finalEvent]
    split
    · rfl
    · rfl
  · rfl

/-- C6: in every streaming session, the `sufficient` status event is
emitted exactly once when the number of job events pulled before the loop
ends reaches 25, and never otherwise; in particular a 26th posting does not
re-trigger it and sessions with fewer than 25 jobs never emit it. -/
theorem sufficient_exactly_once (its : List IterIn) (err : Option String) :
    countSufficient (generatorRun its err) =
      if 25 ≤ (runLoop 0 its).1 then 1 else 0 := by
  have h := countSufficient_runLoop 0 its
  have hf := finalEvent_ne_sufficient err (runLoop 0 its).1
  simp only [generatorRun, countSufficient, List.countP_append,
    List.countP_cons, List.countP_nil] at *
  simp [hf, h]

/-- When every iteration before the overall-timeout check is an idle queue
wait, the loop ends with its starting job count. -/
theorem runLoop_idle_timeout (n : Nat) (pre post : List IterIn)
    (h : ∀ e ∈ pre, ∃ t, e = IterIn.queueIdle t) :
    (runLoop n (pre ++ IterIn.timeoutHit :: post)).1 = n := by
  induction pre generalizing n with
  | nil => simp [runLoop]
  | cons e pre ih =>
    obtain ⟨t, rfl⟩ := h e (by simp)
    simp only [List.cons_append, runLoop]
    exact ih n (fun e he => h e (by simp [he]))

/-- C7: if the overall session timeout expires with zero postings collected
(every earlier loop iteration was an idle queue wait) and the callback
reported no error, the final event of the stream is `completed` with
total 0, not an `error` event. -/
theorem timeout_zero_jobs_completed (its pre post : List IterIn)
    (h1 : its = pre ++ IterIn.timeoutHit :: post)
    (h2 : ∀ e ∈ pre, ∃ t, e = IterIn.queueIdle t) :
    (generatorRun its none).getLast? = some (Ev.completedEv 0) := by
  subst h1
  have h0 := runLoop_idle_timeout 0 pre post h2
  simp only [generatorRun, h0, finalEvent]
  rw [show [Ev.started, Ev.searchingInit] ++
      (runLoop 0 (pre ++ IterIn.timeoutHit :: post)).2 ++ [if 0 < 0 then
        Ev.completedEv 0 else Ev.completedEv 0] =
    ([Ev.started, Ev.searchingInit] ++
      (runLoop 0 (pre ++ IterIn.timeoutHit :: post)).2) ++ [Ev.completedEv 0]
    by simp]
  exact List.getLast?_concat _

/-- Witness for C7: one idle wait, then the overall timeout fires; the
stream ends with `completed`, total 0. -/
theorem timeout_zero_jobs_completed_witness :
    (generatorRun [IterIn.queueIdle 2, IterIn.timeoutHit] none).getLast? =
      some (Ev.completedEv 0) :=
  timeout_zero_jobs_completed _ [IterIn.queueIdle 2] []
    rfl (by intro e he; simp at he; exact ⟨2, he⟩)

/-! ## Theorems: streaming deduplication (C5) -/

/-- `sameKey` is reflexive. -/
theorem sameKey_refl (a : Job) : sameKey a a = true := by
  simp [sameKey]

/-- Two jobs matching the same key match each other. -/
theorem sameKey_trans_right {a b j : Job} (h1 : sameKey a j = true)
    (h2 : sameKey b j = true) : sameKey a b = true := by
  simp only [sameKey, Bool.and_eq_true, beq_iff_eq] at *
  exact ⟨h1.1.trans h2.1.symm, h1.2.trans h2.2.symm⟩

/-- Processing one batch preserves pairwise key-distinctness of the
accumulated `all_jobs`. -/
theorem pairwise_append_dedupBatchNew (b : List Job) :
    ∀ all : List Job, List.Pairwise (fun a c => sameKey a c = false) all →
      List.Pairwise (fun a c => sameKey a c = false)
        (all ++ dedupBatchNew all b) := by
  induction b with
  | nil => intro all h; simpa [dedupBatchNew] using h
  | cons j js ih =>
    intro all h
    simp only [dedupBatchNew]
    split
    · exact ih all h
    · rename_i hany
      have hfresh : ∀ a ∈ all, sameKey a j = false := by
        intro a ha
        by_contra hc
        have ht : sameKey a j = true := by
          cases hsk : sameKey a j with
          | false => exact absurd hsk hc
          | true => rfl
        exact hany (List.any_eq_true.mpr ⟨a, ha, ht⟩)
      have h' : List.Pairwise (fun a c => sameKey a c = false) (all ++ [j]) := by
        rw [List.pairwise_append]
        exact ⟨h, List.pairwise_singleton _ _, fun a ha c hc => by
          simp at hc; subst hc; exact hfresh a ha⟩
      have := ih (all ++ [j]) h'
      simpa [List.append_assoc] using this

/-- The final `all_jobs` equals the starting list plus everything emitted. -/
theorem finalAll_eq_append (bs : List (List Job)) :
    ∀ all : List Job,
      finalAll all bs = all ++ (processBatches all bs).flatten := by
  induction bs with
  | nil => intro all; simp [finalAll, processBatches]
  | cons b bs ih =>
    intro all
    simp only [finalAll, processBatches]
    rw [ih (all ++ dedupBatchNew all b)]
    by_cases hE : (dedupBatchNew all b).isEmpty
    · simp only [hE, if_true]
      rw [List.isEmpty_iff.mp hE]
      simp
    · simp only [hE, if_false]
      simp [List.append_assoc]

/-- Key-distinctness of the final `all_jobs`. -/
theorem pairwise_finalAll (bs : List (List Job)) :
    ∀ all : List Job, List.Pairwise (fun a c => sameKey a c = false) all →
      List.Pairwise (fun a c => sameKey a c = false) (finalAll all bs) := by
  induction bs with
  | nil => intro all h; simpa [finalAll] using h
  | cons b bs ih =>
    intro all h
    simp only [finalAll]
    exact ih _ (pairwise_append_dedupBatchNew b all h)

/-- `all_jobs` only grows. -/
theorem mem_finalAll_of_mem (bs : List (List Job)) :
    ∀ all : List Job, ∀ j ∈ all, j ∈ finalAll all bs := by
  induction bs with
  | nil => intro all j hj; simpa [finalAll] using hj
  | cons b bs ih =>
    intro all j hj
    simp only [finalAll]
    exact ih _ j (List.mem_append.mpr (Or.inl hj))

/-- After a batch is processed, every key of the batch is represented in
the accumulated `all_jobs`. -/
theorem batch_key_covered (b : List Job) :
    ∀ all : List Job, ∀ j ∈ b,
      ∃ j' ∈ all ++ dedupBatchNew all b, sameKey j' j = true := by
  induction b with
  | nil => intro all j hj; simp at hj
  | cons j0 js ih =>
    intro all j hj
    simp only [dedupBatchNew]
    rcases List.mem_cons.mp hj with rfl | hj'
    · split
      · rename_i hany
        obtain ⟨a, ha, hk⟩ := List.any_eq_true.mp hany
        exact ⟨a, List.mem_append.mpr (Or.inl ha), hk⟩
      · exact ⟨j, by simp, sameKey_refl j⟩
    · split
      · exact ih all j hj'
      · obtain ⟨j', hm, hk⟩ := ih (all ++ [j0]) j hj'
        refine ⟨j', ?_, hk⟩
        simpa [List.append_assoc] using hm

/-- Every job the provider ever yielded has its key represented in the
final `all_jobs`. -/
theorem flatten_key_covered (bs : List (List Job)) :
    ∀ all : List Job, ∀ j ∈ bs.flatten,
      ∃ j' ∈ finalAll all bs, sameKey j' j = true := by
  induction bs with
  | nil => intro all j hj; simp at hj
  | cons b bs ih =>
    intro all j hj
    simp only [finalAll]
    rw [List.flatten_cons] at hj
    rcases List.mem_append.mp hj with hb | hbs
    · obtain ⟨j', hm, hk⟩ := batch_key_covered b all j hb
      exact ⟨j', mem_finalAll_of_mem bs _ j' hm, hk⟩
    · exact ih _ j hbs

/-- In a pairwise key-distinct list, a represented key is counted exactly
once. -/
theorem countP_key_one {l : List Job} {j j' : Job}
    (hp : List.Pairwise (fun a c => sameKey a c = false) l)
    (hm : j' ∈ l) (hk : sameKey j' j = true) :
    l.countP (fun x => sameKey x j) = 1 := by
  induction l with
  | nil => simp at hm
  | cons a t ih =>
    have hpa := List.pairwise_cons.mp hp
    rcases List.mem_cons.mp hm with rfl | hm'
    · have h0 : t.countP (fun x => sameKey x j) = 0 := by
        rw [List.countP_eq_zero]
        intro x hx hc
        have := sameKey_trans_right hk hc
        rw [hpa.1 x hx] at this
        exact Bool.false_ne_true this
      simp [List.countP_cons, hk, h0]
    · have ha : sameKey a j = false := by
        cases hc : sameKey a j with
        | false => rfl
        | true =>
          have := sameKey_trans_right hc hk
          rw [hpa.1 j' hm'] at this
          exact absurd this Bool.false_ne_true
      have := ih hpa.2 hm'
      simp [List.countP_cons, ha, this]

/-- C5: deduplication invariant. No two job postings delivered to the
client in one session share a (title, company) key, and every posting the
provider yielded (in particular one yielded twice) is delivered under its
key exactly once. -/
theorem emittedJobs_dedup (batches : List (List Job)) :
    List.Pairwise (fun a c => sameKey a c = false) (emittedJobs batches) ∧
      ∀ j ∈ batches.flatten,
        (emittedJobs batches).countP (fun j' => sameKey j' j) = 1 := by
  have he : emittedJobs batches = finalAll [] batches := by
    rw [emittedJobs, finalAll_eq_append batches []]
    simp
  constructor
  · rw [he]
    exact pairwise_finalAll batches [] (List.Pairwise.nil)
  · intro j hj
    rw [he]
    obtain ⟨j', hm, hk⟩ := flatten_key_covered batches [] j hj
    exact countP_key_one (pairwise_finalAll batches [] List.Pairwise.nil) hm hk

/-- Witness for C5: the same (title, company) posting streamed twice
produces exactly one delivered job event. -/
theorem emittedJobs_dedup_witness :
    (emittedJobs [[⟨"Engineer", "Acme", "", []⟩],
        [⟨"Engineer", "Acme", "", []⟩]]).countP
      (fun j' => sameKey j' ⟨"Engineer", "Acme", "", []⟩) = 1 :=
  (emittedJobs_dedup [[⟨"Engineer", "Acme", "", []⟩],
      [⟨"Engineer", "Acme", "", []⟩]]).2
    ⟨"Engineer", "Acme", "", []⟩ (by decide)

/-! ## Theorems: PDF text cleaning (C8) -/

/-- Stripping only discards characters. -/
theorem mem_of_mem_pyStrip {x : Char} {s : String}
    (h : x ∈ (pyStrip s).data) : x ∈ s.data := by
  simp only [pyStrip] at h
  have h1 := List.mem_reverse.mp h
  have h2 := (List.dropWhile_sublist Char.isWhitespace).mem h1
  have h3 := List.mem_reverse.mp h2
  exact (List.dropWhile_sublist Char.isWhitespace).mem h3

/-- The whitespace-collapse pass leaves no newline: every whitespace run
(newlines included) becomes a single space. -/
theorem no_nl_collapse_ws :
    ∀ n (l : List Char), l.length ≤ n →
      '\n' ∉ collapseRunsF pythonIsSpace (fun _ => [' ']) n l := by
  intro n
  induction n with
  | zero =>
    intro l hl
    rw [List.length_eq_zero.mp (Nat.le_zero.mp hl)]
    simp [collapseRunsF]
  | succ n ih =>
    intro l hl
    match l with
    | [] => simp [collapseRunsF]
    | c :: cs =>
      rw [collapseRunsF]
      split
      · intro hmem
        rcases List.mem_append.mp hmem with h1 | h2
        · simp at h1
        · exact ih (cs.dropWhile pythonIsSpace)
            (Nat.le_trans (dropWhile_len_le _ cs)
              (Nat.le_of_succ_le_succ hl)) h2
      · rename_i hc
        intro hmem
        rcases List.mem_cons.mp hmem with h1 | h2
        · rw [← h1] at hc
          simp [pythonIsSpace] at hc
        · exact ih cs (Nat.le_of_succ_le_succ hl) h2

/-- `replace(' \n', '\n')` is the identity on newline-free text. -/
theorem replaceSpaceNL_of_no_nl :
    ∀ l : List Char, '\n' ∉ l → replaceSpaceNL l = l := by
  intro l
  induction l with
  | nil => intro _; rfl
  | cons c1 rest ih =>
    intro h
    match rest, ih with
    | [], _ => rfl
    | c2 :: rest', ih =>
      rw [replaceSpaceNL]
      have hc2 : c2 ≠ '\n' := fun he => h (by simp [he])
      rw [if_neg (by simp [hc2])]
      rw [ih (fun hm => h (List.mem_cons_of_mem _ hm))]

/-- The mid-sentence line rejoin is the identity on newline-free text. -/
theorem mergeBrokenLines_of_no_nl :
    ∀ l : List Char, '\n' ∉ l → mergeBrokenLines l = l := by
  intro l
  induction l with
  | nil => intro _; rfl
  | cons c1 rest ih =>
    intro h
    match rest, ih with
    | [], _ => rfl
    | [c2], _ => rfl
    | c2 :: c3 :: rest', ih =>
      rw [mergeBrokenLines]
      have hc2 : c2 ≠ '\n' := fun he => h (by simp [he])
      rw [if_neg (by simp [hc2])]
      rw [ih (fun hm => h (List.mem_cons_of_mem _ hm))]

/-- C8 (amended): `_clean_text` returns text with no newline at all. The
first pass does collapse 3+ newline runs to two, but the whitespace
collapse that follows turns every whitespace run — surviving newlines
included — into a single space, so paragraph breaks do not survive and the
trailing line-rejoin substitutions are vacuous. -/
theorem cleanText_no_newline (t : String) :
    (cleanText t).data.count '\n' = 0 := by
  rw [List.count_eq_zero]
  intro hmem
  have h1 := mem_of_mem_pyStrip hmem
  simp only [cleanText] at h1
  set t2 := collapseRuns (fun c => decide (127 < c.toNat)) (fun _ => [' '])
    (collapseRuns (fun c => c == '\n')
      (fun run => if 3 ≤ run.length then ['\n', '\n'] else run) t.data)
  have h3 : '\n' ∉ collapseRuns pythonIsSpace (fun _ => [' ']) t2 :=
    no_nl_collapse_ws t2.length t2 (Nat.le_refl _)
  rw [replaceSpaceNL_of_no_nl _ h3, mergeBrokenLines_of_no_nl _ h3] at h1
  exact h3 h1

/-- Counterexample for C8 as stated: a run of three newlines does not
survive as two newlines; the cleaned text of "a\n\n\nb" is "a b", with no
newline at all. -/
theorem cleanText_three_newlines_cex :
    cleanText "a\n\n\nb" = "a b" ∧
      (cleanText "a\n\n\nb").data.count '\n' = 0 := by
  constructor
  · decide
  · decide

/-! ## Theorems: extractor error handling (C9) -/

/-- Counterexample for C9 as stated: the plain-text extractor, on a
zero-byte file (successfully opened, empty content), returns an
empty-string success, not an extraction error. -/
theorem textExtract_empty_cex :
    textExtractText (some "") = Except.ok "" ∧
      isErr (textExtractText (some "")) = false := by
  constructor
  · rfl
  · rfl

/-- C9 (amended): the empty-file rejection lives in `parse_file`, not in
every extractor. An empty upload is rejected before dispatch; PDF
extraction errors on a missing or zero-byte file and returns the sentinel
string for whitespace-only extraction; but `TextParser.extract_text`
itself succeeds with the empty string on a zero-byte file. -/
theorem empty_file_handling (content : String) (ex : Except String String)
    (f g : PdfFile)
    (hc : content.isEmpty = true)
    (hf : f.present = false ∨ f.size = 0)
    (hg : g.present = true ∧ g.size ≠ 0 ∧
      (g.extracted.isEmpty || pyIsSpaceStr g.extracted) = true) :
    isRejected (parseFileCheck content ex) = true ∧
      isErr (pdfExtractText f) = true ∧
      pdfExtractText g = .ok pdfSentinel ∧
      textExtractText (some "") = .ok "" := by
  refine ⟨?_, ?_, ?_, rfl⟩
  · simp [parseFileCheck, hc, isRejected]
  · unfold pdfExtractText
    split_ifs with h1 h2 h3
    · rfl
    · rfl
    · rcases hf with h | h
      · exact absurd h h1
      · exact absurd h h2
    · rcases hf with h | h
      · exact absurd h h1
      · exact absurd h h2
  · unfold pdfExtractText
    rw [if_neg (by simp [hg.1]), if_neg hg.2.1, if_pos hg.2.2]

/-- Witness for C9 (amended) at concrete files: an empty upload, a missing
PDF, and a nonempty PDF whose extracted text is whitespace. -/
theorem empty_file_handling_witness :
    isRejected (parseFileCheck "" (.ok "x")) = true ∧
      isErr (pdfExtractText ⟨false, 3, "x"⟩) = true ∧
      pdfExtractText ⟨true, 5, "  "⟩ = .ok pdfSentinel ∧
      textExtractText (some "") = .ok "" :=
  empty_file_handling "" (.ok "x") ⟨false, 3, "x"⟩ ⟨true, 5, "  "⟩
    rfl (Or.inl rfl) ⟨rfl, by decide, by decide⟩

/-! ## Theorems: section extraction (C1, C2) -/

/-- A bucketed line is genuine: nonempty, and the strip of an input line. -/
def lineFrom (lines : List String) (l : String) : Prop :=
  l ≠ "" ∧ ∃ orig ∈ lines, pyStrip orig = l

/-- Every line of every bucket of the dict is genuine. -/
def dictSound (lines : List String) (d : Sections) : Prop :=
  ∀ p ∈ d, ∀ l ∈ p.2, lineFrom lines l

/-- Slicing and stripping only produces genuine lines. -/
theorem sliceStrip_sound (lines : List String) (a b : Nat) :
    ∀ l ∈ sliceStrip lines a b, lineFrom lines l := by
  intro l hl
  simp only [sliceStrip, List.mem_filterMap] at hl
  obtain ⟨orig, ho, he⟩ := hl
  have hom : orig ∈ lines :=
    List.mem_of_mem_drop (List.mem_of_mem_take ho)
  by_cases hE : (pyStrip orig).isEmpty
  · rw [if_pos hE] at he
    exact absurd he (by simp)
  · rw [if_neg hE] at he
    obtain rfl := Option.some.inj he
    refine ⟨?_, orig, hom, rfl⟩
    intro h0
    rw [h0] at hE
    exact hE rfl

/-- Extending a bucket with genuine lines preserves soundness. -/
theorem dictExtendKey_sound {lines : List String} {d : Sections}
    (hd : dictSound lines d) (k : String) {vs : List String}
    (hvs : ∀ l ∈ vs, lineFrom lines l) :
    dictSound lines (dictExtendKey d k vs) := by
  intro p hp l hl
  unfold dictExtendKey at hp
  split at hp
  · obtain ⟨q, hq, he⟩ := List.mem_map.mp hp
    by_cases hk : q.1 == k
    · rw [if_pos hk] at he
      rw [← he] at hl
      rcases List.mem_append.mp hl with h1 | h2
      · exact hd q hq l h1
      · exact hvs l h2
    · rw [if_neg hk] at he
      rw [← he] at hl
      exact hd q hq l hl
  · rcases List.mem_append.mp hp with h1 | h2
    · exact hd p h1 l hl
    · have : p = (k, vs) := by simpa using h2
      rw [this] at hl
      exact hvs l hl

/-- Replacing a bucket with genuine lines preserves soundness. -/
theorem dictSet_sound {lines : List String} {d : Sections}
    (hd : dictSound lines d) (k : String) {vs : List String}
    (hvs : ∀ l ∈ vs, lineFrom lines l) :
    dictSound lines (dictSet d k vs) := by
  intro p hp l hl
  unfold dictSet at hp
  split at hp
  · obtain ⟨q, hq, he⟩ := List.mem_map.mp hp
    by_cases hk : q.1 == k
    · rw [if_pos hk] at he
      rw [← he] at hl
      exact hvs l hl
    · rw [if_neg hk] at he
      rw [← he] at hl
      exact hd q hq l hl
  · rcases List.mem_append.mp hp with h1 | h2
    · exact hd p h1 l hl
    · have : p = (k, vs) := by simpa using h2
      rw [this] at hl
      exact hvs l hl

/-- Adding an empty bucket preserves soundness. -/
theorem dict_add_empty_sound {lines : List String} {d : Sections}
    (hd : dictSound lines d) (k : String) :
    dictSound lines (d ++ [(k, [])]) := by
  intro p hp l hl
  rcases List.mem_append.mp hp with h1 | h2
  · exact hd p h1 l hl
  · have : p = (k, ([] : List String)) := by simpa using h2
    rw [this] at hl
    simp at hl

/-- The header-interval loop only stores genuine lines. -/
theorem processHeaders_sound (lines : List String) (hs : List Header) :
    ∀ d : Sections, dictSound lines d →
      dictSound lines (processHeaders lines d hs) := by
  induction hs with
  | nil => intro d hd; simpa [processHeaders] using hd
  | cons h rest ih =>
    intro d hd
    exact ih _ (dictExtendKey_sound hd _ (sliceStrip_sound lines _ _))

/-- The no-header fallback only stores genuine lines. -/
theorem streamClassify_sound (lines : List String) :
    ∀ (ls : List String) (cur : String) (d : Sections),
      (∀ l ∈ ls, l ∈ lines) → dictSound lines d →
      dictSound lines (streamClassify cur d ls) := by
  intro ls
  induction ls with
  | nil => intro cur d _ hd; simpa [streamClassify] using hd
  | cons l ls ih =>
    intro cur d hls hd
    have hmem : l ∈ lines := hls l (by simp)
    have hls' : ∀ x ∈ ls, x ∈ lines := fun x hx => hls x (by simp [hx])
    rw [streamClassify]
    split
    · exact ih cur d hls' hd
    · rename_i hne
      split
      · rename_i sec _
        refine ih sec _ hls' ?_
        split
        · exact hd
        · exact dict_add_empty_sound hd sec
      · refine ih cur _ hls' ?_
        refine dictExtendKey_sound hd cur ?_
        intro x hx
        have : x = pyStrip l := by simpa using hx
        subst this
        refine ⟨?_, l, hmem, rfl⟩
        intro h0
        rw [h0] at hne
        exact hne rfl

/-- Soundness of the whole segmentation at the line-list level. -/
theorem extractSectionsLines_sound (lines : List String) :
    dictSound lines (extractSectionsLines lines) := by
  have hd0 : dictSound lines [("other", [])] := by
    intro p hp l hl
    have : p = ("other", ([] : List String)) := by simpa using hp
    rw [this] at hl
    simp at hl
  have hmain : dictSound lines (extractMain lines) := by
    rcases hH : sortByScoreDesc (collectHeaders 0 lines) with _ | ⟨h, hs⟩
    · unfold extractMain
      rw [hH]
      exact streamClassify_sound lines lines "other" [("other", [])]
        (fun l hl => hl) hd0
    · have h1 := processHeaders_sound lines (h :: hs) [("other", [])] hd0
      unfold extractMain
      rw [hH]
      show dictSound lines (extractHeaderPath lines h hs)
      unfold extractHeaderPath
      split
      · exact h1
      · exact dictExtendKey_sound h1 _ (sliceStrip_sound lines _ _)
  unfold extractSectionsLines
  split
  · split
    · exact hmain
    · exact dictSet_sound hmain _ (sliceStrip_sound lines _ _)
  · exact hmain

/-- C1 (amended): every line stored in any section bucket by
`extract_sections` is genuine — nonempty and the strip of an input line —
but the exactly-once assignment fails: header-candidate lines are never
stored as content, and when the score-sorted header order differs from
document order lines can be dropped or duplicated across buckets. -/
theorem extractSections_content_sound (text : String) :
    ∀ p ∈ extractSections text, ∀ l ∈ p.2,
      l ≠ "" ∧ ∃ orig ∈ pySplitLines text, pyStrip orig = l := by
  intro p hp l hl
  exact extractSectionsLines_sound (pySplitLines text) p hp l hl

/-- Witness for C1 (amended) on a concrete document. -/
theorem extractSections_content_sound_witness :
    "BSc" ≠ "" ∧ ∃ orig ∈ pySplitLines "EDUCATION:\nBSc", pyStrip orig = "BSc" :=
  extractSections_content_sound "EDUCATION:\nBSc" ("education", ["BSc"])
    (by decide) "BSc" (by decide)

/-- Counterexample for C1 as stated: in "EDUCATION:\nBSc" the header line
is dropped (1 bucketed line vs 2 non-blank input lines), and in a document
whose score-sorted header order differs from document order the line "BSc"
is stored in two buckets at once. -/
theorem extractSections_partition_cex :
    totalBucketLines (extractSections "EDUCATION:\nBSc") = 1 ∧
      nonBlankCount "EDUCATION:\nBSc" = 2 ∧
      dictGet (extractSections
        "skills\njava\nEDUCATION:\nBSc\nEXPERIENCE:\nintern") "education"
        = ["BSc"] ∧
      dictGet (extractSections
        "skills\njava\nEDUCATION:\nBSc\nEXPERIENCE:\nintern") "skills"
        = ["java", "EDUCATION:", "BSc", "EXPERIENCE:", "intern"] := by
  refine ⟨by decide, by decide, by decide, by decide⟩

/-- The header heuristic never scores above 8. -/
theorem scoreLine_le_8 (l : String) : scoreLine l ≤ 8 := by
  unfold scoreLine
  split_ifs <;> omega

/-- A line matching any section keyword list is always a header candidate. -/
theorem scoreLine_ge_3 {l : String} (h : (sectionFor l).isSome = true) :
    3 ≤ scoreLine l := by
  unfold scoreLine
  rw [if_pos h]
  split_ifs <;> omega

/-- A nonempty string has `isEmpty = false`. -/
theorem isEmpty_false_of_ne {s : String} (h : s ≠ "") :
    s.isEmpty = false := by
  cases he : s.isEmpty
  · rfl
  · exact absurd ((String.isEmpty_iff s).mp he) h

/-- Strip-and-filter is the identity on already-stripped nonempty lines. -/
theorem filterMap_strip_id {cs : List String}
    (h : ∀ c ∈ cs, pyStrip c = c ∧ c ≠ "") :
    cs.filterMap (fun l =>
      if (pyStrip l).isEmpty then none else some (pyStrip l)) = cs := by
  induction cs with
  | nil => rfl
  | cons c cs ih =>
    obtain ⟨hs, hne⟩ := h c (by simp)
    rw [List.filterMap_cons]
    rw [hs]
    rw [if_neg (by simp [isEmpty_false_of_ne hne])]
    rw [ih (fun x hx => h x (by simp [hx]))]

/-- The header scan of a run of non-candidate stripped lines followed by a
single keyword-matching final line finds exactly that final line. -/
theorem collectHeaders_low_tail {hdr2 : String}
    (hh : pyStrip hdr2 = hdr2) (hne : hdr2 ≠ "")
    (hsome : (sectionFor hdr2).isSome = true) :
    ∀ (cs : List String) (i : Nat),
      (∀ c ∈ cs, pyStrip c = c ∧ c ≠ "" ∧ scoreLine c < 3) →
      collectHeaders i (cs ++ [hdr2]) =
        [⟨i + cs.length, hdr2, scoreLine hdr2⟩] := by
  intro cs
  induction cs with
  | nil =>
    intro i _
    show (if !(pyStrip hdr2).isEmpty && decide (3 ≤ scoreLine (pyStrip hdr2))
        then [⟨i, pyStrip hdr2, scoreLine (pyStrip hdr2)⟩] else []) ++
      collectHeaders (i + 1) [] = [⟨i + 0, hdr2, scoreLine hdr2⟩]
    rw [hh]
    rw [if_pos (by
      simp only [Bool.and_eq_true, Bool.not_eq_true', decide_eq_true_eq]
      exact ⟨isEmpty_false_of_ne hne, scoreLine_ge_3 hsome⟩)]
    simp [collectHeaders]
  | cons c cs ih =>
    intro i h
    obtain ⟨hs, hcne, hsc⟩ := h c (by simp)
    show (if !(pyStrip c).isEmpty && decide (3 ≤ scoreLine (pyStrip c))
        then [⟨i, pyStrip c, scoreLine (pyStrip c)⟩] else []) ++
      collectHeaders (i + 1) (cs ++ [hdr2]) =
      [⟨i + (c :: cs).length, hdr2, scoreLine hdr2⟩]
    rw [hs]
    rw [if_neg (by
      simp only [Bool.and_eq_true, Bool.not_eq_true', decide_eq_true_eq]
      rintro ⟨-, h3⟩
      omega)]
    rw [List.nil_append, ih (i + 1) (fun x hx => h x (by simp [hx]))]
    simp only [List.length_cons]
    congr 2
    omega

/-- Unfolding equation for the header scan. -/
theorem collectHeaders_cons (i : Nat) (l : String) (ls : List String) :
    collectHeaders i (l :: ls) =
      (if !(pyStrip l).isEmpty && decide (3 ≤ scoreLine (pyStrip l)) then
        [⟨i, pyStrip l, scoreLine (pyStrip l)⟩] else []) ++
      collectHeaders (i + 1) ls := rfl

/-- C2 (amended): for a document consisting of exactly an "EDUCATION:"
header line, one or more stripped non-blank content lines none of which is
itself a header candidate, and a final line matching a known non-education
section keyword list, `extract_sections` places exactly the intervening
lines in the "education" bucket and none of them (nor anything else) in
"other". -/
theorem education_roundtrip_amended
    (text : String) (cs : List String) (hdr2 sec : String)
    (hsplit : pySplitLines text = "EDUCATION:" :: (cs ++ [hdr2]))
    (hcs : ∀ c ∈ cs, pyStrip c = c ∧ c ≠ "" ∧ scoreLine c < 3)
    (hcs_ne : cs ≠ [])
    (hh : pyStrip hdr2 = hdr2) (hne : hdr2 ≠ "")
    (hsec : sectionFor hdr2 = some sec)
    (hsede : sec ≠ "education") (hseo : sec ≠ "other") :
    dictGet (extractSections text) "education" = cs ∧
      dictGet (extractSections text) "other" = [] := by
  have hsome : (sectionFor hdr2).isSome = true := by rw [hsec]; rfl
  have hs8 := scoreLine_le_8 hdr2
  -- the header scan finds exactly the two header lines
  have hcol : collectHeaders 0 ("EDUCATION:" :: (cs ++ [hdr2])) =
      [⟨0, "EDUCATION:", 8⟩, ⟨1 + cs.length, hdr2, scoreLine hdr2⟩] := by
    rw [collectHeaders_cons]
    rw [collectHeaders_low_tail hh hne hsome cs 1 hcs]
    rw [show pyStrip "EDUCATION:" = "EDUCATION:" from by decide]
    rw [if_pos (by decide)]
    rw [show scoreLine "EDUCATION:" = 8 from by decide]
    rfl
  -- the stable descending sort keeps the document order of the two headers
  have hsort : sortByScoreDesc
      [⟨0, "EDUCATION:", 8⟩, ⟨1 + cs.length, hdr2, scoreLine hdr2⟩] =
      [⟨0, "EDUCATION:", 8⟩, ⟨1 + cs.length, hdr2, scoreLine hdr2⟩] := by
    simp only [sortByScoreDesc, List.foldl_cons, List.foldl_nil, insertDesc]
    rw [if_neg (by simpa using Nat.not_lt.mpr hs8)]
  -- the interval of the education header is exactly the content lines
  have hslice1 : sliceStrip ("EDUCATION:" :: (cs ++ [hdr2])) (0 + 1)
      (1 + cs.length) = cs := by
    unfold sliceStrip
    rw [show (1 + cs.length) - (0 + 1) = cs.length from by omega]
    rw [show ("EDUCATION:" :: (cs ++ [hdr2])).drop (0 + 1) = cs ++ [hdr2]
      from rfl]
    rw [List.take_left cs [hdr2]]
    exact filterMap_strip_id (fun c hc => ⟨(hcs c hc).1, (hcs c hc).2.1⟩)
  -- the interval of the trailing header is empty
  have hslice2 : sliceStrip ("EDUCATION:" :: (cs ++ [hdr2]))
      ((1 + cs.length) + 1) ("EDUCATION:" :: (cs ++ [hdr2])).length = [] := by
    unfold sliceStrip
    rw [show ("EDUCATION:" :: (cs ++ [hdr2])).length - ((1 + cs.length) + 1)
      = 0 from by simp; omega]
    simp
  -- the two dictionary updates
  have hd1 : dictExtendKey [("other", [])] "education" cs =
      [("other", []), ("education", cs)] := by
    unfold dictExtendKey
    rw [show dictHasKey [("other", [])] "education" = false from by decide]
    simp
  have hkey2 : dictHasKey [("other", []), ("education", cs)] sec = false := by
    unfold dictHasKey
    have h1 : ("other" == sec) = false := by
      simp only [beq_eq_false_iff_ne]
      exact fun he => hseo he.symm
    have h2 : ("education" == sec) = false := by
      simp only [beq_eq_false_iff_ne]
      exact fun he => hsede he.symm
    simp [h1, h2]
  have hd2 : dictExtendKey [("other", []), ("education", cs)] sec [] =
      [("other", []), ("education", cs), (sec, [])] := by
    unfold dictExtendKey
    rw [hkey2]
    simp
  -- the header path computes the final dictionary
  have hproc : processHeaders ("EDUCATION:" :: (cs ++ [hdr2])) [("other", [])]
      [⟨0, "EDUCATION:", 8⟩, ⟨1 + cs.length, hdr2, scoreLine hdr2⟩] =
      [("other", []), ("education", cs), (sec, [])] := by
    show processHeaders ("EDUCATION:" :: (cs ++ [hdr2]))
        (dictExtendKey [("other", [])]
          ((sectionFor "EDUCATION:").getD "other")
          (sliceStrip ("EDUCATION:" :: (cs ++ [hdr2])) (0 + 1)
            (1 + cs.length)))
        [⟨1 + cs.length, hdr2, scoreLine hdr2⟩] = _
    rw [hslice1]
    rw [show (sectionFor "EDUCATION:").getD "other" = "education" from by
      decide]
    rw [hd1]
    show dictExtendKey [("other", []), ("education", cs)]
        ((sectionFor hdr2).getD "other")
        (sliceStrip ("EDUCATION:" :: (cs ++ [hdr2])) ((1 + cs.length) + 1)
          ("EDUCATION:" :: (cs ++ [hdr2])).length) = _
    rw [hslice2, hsec]
    exact hd2
  -- the main pass: header path, empty pre-header contact slice
  have hmain : extractMain ("EDUCATION:" :: (cs ++ [hdr2])) =
      [("other", []), ("education", cs), (sec, [])] := by
    unfold extractMain
    rw [hcol, hsort]
    show extractHeaderPath ("EDUCATION:" :: (cs ++ [hdr2]))
        ⟨0, "EDUCATION:", 8⟩ [⟨1 + cs.length, hdr2, scoreLine hdr2⟩] = _
    unfold extractHeaderPath
    rw [show minByIndex ⟨0, "EDUCATION:", 8⟩
        [⟨1 + cs.length, hdr2, scoreLine hdr2⟩] = ⟨0, "EDUCATION:", 8⟩ from by
      simp [minByIndex]]
    rw [if_pos (show (sliceStrip ("EDUCATION:" :: (cs ++ [hdr2])) 0
      (Header.mk 0 "EDUCATION:" 8).index).isEmpty = true from rfl)]
    exact hproc
  -- the education bucket is nonempty, so the contact fallback is skipped
  have hcsE : cs.isEmpty = false := by
    cases cs with
    | nil => exact absurd rfl hcs_ne
    | cons a t => rfl
  have hmean : hasMeaningful [("other", []), ("education", cs), (sec, [])]
      = true := by
    refine List.any_eq_true.mpr ⟨("education", cs), by simp, ?_⟩
    simp [hcsE]
  have hfinal : extractSections text =
      [("other", []), ("education", cs), (sec, [])] := by
    unfold extractSections
    rw [hsplit]
    unfold extractSectionsLines
    rw [hmain, hmean]
    simp
  rw [hfinal]
  constructor
  · unfold dictGet
    rw [show List.find? (fun p => p.1 == "education")
        [("other", ([] : List String)), ("education", cs), (sec, [])]
        = some ("education", cs) from by
      rw [List.find?_cons_of_neg _ (by decide), List.find?_cons_of_pos _ (by simp)]]
  · unfold dictGet
    rw [List.find?_cons_of_pos _ (by simp)]

/-- Witness for C2 (amended) on a concrete minimal document. -/
theorem education_roundtrip_amended_witness :
    dictGet (extractSections "EDUCATION:\nBSc Computer Science\nEXPERIENCE:")
        "education" = ["BSc Computer Science"] ∧
      dictGet (extractSections "EDUCATION:\nBSc Computer Science\nEXPERIENCE:")
        "other" = [] :=
  education_roundtrip_amended "EDUCATION:\nBSc Computer Science\nEXPERIENCE:"
    ["BSc Computer Science"] "EXPERIENCE:" "experience"
    (by decide) (by decide) (by decide) (by decide) (by decide)
    (by decide) (by decide) (by decide)

/-- Counterexample for C2 as stated: a document containing "EDUCATION:"
followed by content and a known "SKILLS:" header, but also a later
"QUALIFICATIONS:" header (whose keyword also maps to education), ends with
education bucket ["BSc", "MSc"], not exactly the intervening ["BSc"]. -/
theorem education_roundtrip_cex :
    dictGet (extractSections
        "EDUCATION:\nBSc\nSKILLS:\npython\nQUALIFICATIONS:\nMSc")
        "education" = ["BSc", "MSc"] ∧
      ["BSc", "MSc"] ≠ ["BSc"] := by
  refine ⟨by decide, by decide⟩

end Jobha
